import Mathlib

/-!
Verification of the algorithmic core of the EscherBall repository.

The repository contains two algorithmic components (see scene.py and
ball_manager.py): a rejection-sampling rectangle packer that hangs picture
frames on a wall without overlaps, and a bouncing-ball path animator that
emits position, scale and color keyframes along a waypoint sequence.

Conventions of the shallow embedding:
- Python floats are modelled as exact rationals, following the spec's
  numeric semantics section, which declares all arithmetic real-valued
  except integer truncation of frame indices.
- Python randomness is modelled by threading the stream of random draws as
  an explicit argument: random.uniform(a, b) becomes a + (b - a) * u where
  u is the next unit draw from the stream.
- The Python int() truncation of nonnegative values is Nat.floor.
- Maya setKeyframe semantics: a later keyframe at the same time replaces
  the earlier one, so the effective sample at a time is the last emitted
  keyframe at that time.
-/

namespace EscherBall

/-- Minimum clearance between placed frames; the constant
min_dist_between_fr = 0.2 in scene.py is_overlap. -/
def min_dist_between_fr : ℚ := 1/5

/-- One accepted rectangle as recorded in scene.py frame_data_list:
center position, width and height. -/
structure FrameData where
  x : ℚ
  y : ℚ
  w : ℚ
  h : ℚ
deriving DecidableEq

/-- Shallow embedding of scene.py is_overlap: the candidate rectangle at
(xPos, yPos) with extents frW, frH overlaps the list iff for some recorded
rectangle none of the four strict separation inequalities holds. -/
def is_overlap (xPos yPos frW frH : ℚ) (frameDataList : List FrameData) : Bool :=
  frameDataList.any fun r =>
    ! (decide (xPos + frW / 2 + min_dist_between_fr < r.x - r.w / 2 ∨
        xPos - frW / 2 - min_dist_between_fr > r.x + r.w / 2 ∨
        yPos + frH / 2 + min_dist_between_fr < r.y - r.h / 2 ∨
        yPos - frH / 2 - min_dist_between_fr > r.y + r.h / 2))

/-- CPython semantics of random.uniform(a, b): a + (b - a) * u where u is
the unit random draw. Note no ordering of a and b is required; for a > b
the value lies between b and a. -/
def uniform (a b u : ℚ) : ℚ := a + (b - a) * u

/-- Attempt budget of scene.py is_frame_placed_on_wall. -/
def max_attempts : ℕ := 300

/-- Candidate center drawn by one attempt of is_frame_placed_on_wall from
the pair of unit draws u: x from uniform(-wall/2 + w/2, wall/2 - w/2) and
y from uniform(h/2, wall - h/2). -/
def attemptPos (frW frH wallSize : ℚ) (u : ℚ × ℚ) : ℚ × ℚ :=
  (uniform (-wallSize / 2 + frW / 2) (wallSize / 2 - frW / 2) u.1,
   uniform (frH / 2) (wallSize - frH / 2) u.2)

/-- The retry loop of is_frame_placed_on_wall over an explicit list of unit
draws, one element per attempt: accept the first candidate that does not
overlap, appending it to the list; fail leaving the list unchanged. -/
def placeAttempts (frW frH : ℚ) (frameDataList : List FrameData) (wallSize : ℚ) :
    List (ℚ × ℚ) → Bool × List FrameData
  | [] => (false, frameDataList)
  | u :: rest =>
    let p := attemptPos frW frH wallSize u
    if is_overlap p.1 p.2 frW frH frameDataList then
      placeAttempts frW frH frameDataList wallSize rest
    else
      (true, frameDataList ++ [⟨p.1, p.2, frW, frH⟩])

/-- Shallow embedding of scene.py is_frame_placed_on_wall: up to
max_attempts attempts, each consuming one pair of unit draws from the
stream us. Returns the success flag together with the resulting
frame_data_list (the Python version mutates the list in place). -/
def is_frame_placed_on_wall (frW frH : ℚ) (frameDataList : List FrameData)
    (wallSize : ℚ) (us : List (ℚ × ℚ)) : Bool × List FrameData :=
  placeAttempts frW frH frameDataList wallSize (us.take max_attempts)

/-- One packing run, as performed by the loop in scene.py hang_frames: a
list of requests (width, height, unit-draw stream) is processed in order,
each one through is_frame_placed_on_wall against the accumulated list. -/
def packRun (wallSize : ℚ) : List (ℚ × ℚ × List (ℚ × ℚ)) → List FrameData → List FrameData
  | [], frameDataList => frameDataList
  | (frW, frH, us) :: rest, frameDataList =>
    packRun wallSize rest (is_frame_placed_on_wall frW frH frameDataList wallSize us).2

/-- Two rectangles are separated when along at least one axis their centers
differ by more than the sum of the half-extents plus the minimum clearance;
this is the symmetric content of the is_overlap test. -/
def separated (r₁ r₂ : FrameData) : Prop :=
  |r₁.x - r₂.x| > (r₁.w + r₂.w) / 2 + min_dist_between_fr ∨
  |r₁.y - r₂.y| > (r₁.h + r₂.h) / 2 + min_dist_between_fr

instance (r₁ r₂ : FrameData) : Decidable (separated r₁ r₂) := by
  unfold separated; infer_instance

lemma separated_symm {r₁ r₂ : FrameData} (hsep : separated r₁ r₂) : separated r₂ r₁ := by
  unfold separated at *
  rw [abs_sub_comm r₂.x r₁.x, abs_sub_comm r₂.y r₁.y, add_comm r₂.w r₁.w, add_comm r₂.h r₁.h]
  exact hsep

/-- Arithmetic content of the is_overlap test against one rectangle: the
four strict inequalities of the code hold for some axis side exactly when
the two rectangles are separated. -/
lemma sep_iff (xPos yPos frW frH : ℚ) (r : FrameData) :
    (xPos + frW / 2 + min_dist_between_fr < r.x - r.w / 2 ∨
     xPos - frW / 2 - min_dist_between_fr > r.x + r.w / 2 ∨
     yPos + frH / 2 + min_dist_between_fr < r.y - r.h / 2 ∨
     yPos - frH / 2 - min_dist_between_fr > r.y + r.h / 2) ↔
      separated ⟨xPos, yPos, frW, frH⟩ r := by
  unfold separated
  rw [gt_iff_lt, gt_iff_lt, gt_iff_lt, gt_iff_lt, lt_abs, lt_abs]
  simp only [neg_sub]
  constructor
  · rintro (hc | hc | hc | hc)
    · exact Or.inl (Or.inr (by linarith))
    · exact Or.inl (Or.inl (by linarith))
    · exact Or.inr (Or.inr (by linarith))
    · exact Or.inr (Or.inl (by linarith))
  · rintro ((hc | hc) | (hc | hc))
    · exact Or.inr (Or.inl (by linarith))
    · exact Or.inl (by linarith)
    · exact Or.inr (Or.inr (Or.inr (by linarith)))
    · exact Or.inr (Or.inr (Or.inl (by linarith)))

/-- The is_overlap test returns false exactly when the candidate is
separated from every recorded rectangle. -/
lemma is_overlap_eq_false_iff {xPos yPos frW frH : ℚ} {L : List FrameData} :
    is_overlap xPos yPos frW frH L = false ↔
      ∀ r ∈ L, separated ⟨xPos, yPos, frW, frH⟩ r := by
  unfold is_overlap
  rw [List.any_eq_false]
  apply forall_congr'
  intro r
  apply imp_congr_right
  intro _
  rw [Bool.not_eq_true', decide_eq_false_iff_not, not_not]
  exact sep_iff xPos yPos frW frH r

/-- One placement call preserves the pairwise separation invariant and can
only extend the accepted list at its end. -/
lemma placeAttempts_invariant (frW frH : ℚ) (L : List FrameData) (wallSize : ℚ)
    (us : List (ℚ × ℚ)) (hpw : L.Pairwise separated) :
    (placeAttempts frW frH L wallSize us).2.Pairwise separated ∧
      L <+: (placeAttempts frW frH L wallSize us).2 := by
  induction us with
  | nil => exact ⟨hpw, List.prefix_refl L⟩
  | cons u rest ih =>
    unfold placeAttempts
    by_cases hov : is_overlap (attemptPos frW frH wallSize u).1
        (attemptPos frW frH wallSize u).2 frW frH L = true
    · simpa [hov] using ih
    · have hov' : is_overlap (attemptPos frW frH wallSize u).1
          (attemptPos frW frH wallSize u).2 frW frH L = false := by
        simpa using hov
      have hsep := is_overlap_eq_false_iff.mp hov'
      refine ⟨?_, ?_⟩
      · simp only [hov', Bool.false_eq_true, if_false]
        rw [List.pairwise_append]
        refine ⟨hpw, List.pairwise_singleton _ _, ?_⟩
        intro a ha b hb
        have hb' : b = (⟨(attemptPos frW frH wallSize u).1,
            (attemptPos frW frH wallSize u).2, frW, frH⟩ : FrameData) := by
          simpa using hb
        subst hb'
        exact separated_symm (hsep a ha)
      · simp only [hov', Bool.false_eq_true, if_false]
        exact List.prefix_append L _

lemma is_frame_placed_invariant (frW frH : ℚ) (L : List FrameData) (wallSize : ℚ)
    (us : List (ℚ × ℚ)) (hpw : L.Pairwise separated) :
    (is_frame_placed_on_wall frW frH L wallSize us).2.Pairwise separated ∧
      L <+: (is_frame_placed_on_wall frW frH L wallSize us).2 :=
  placeAttempts_invariant frW frH L wallSize (us.take max_attempts) hpw

/-- C1. Rectangle Packer non-overlap invariant: along a whole packing run
(and hence at every intermediate point of it, since every intermediate
state is packRun applied to the requests consumed so far), the accepted
list stays pairwise separated, along some axis, by more than the sum of
half-extents plus the minimum clearance, and the run only appends: the
starting list is a prefix of the final one. -/
theorem packer_non_overlap_invariant (wallSize : ℚ)
    (reqs : List (ℚ × ℚ × List (ℚ × ℚ))) (L : List FrameData)
    (hpw : L.Pairwise separated) :
    (packRun wallSize reqs L).Pairwise separated ∧ L <+: packRun wallSize reqs L := by
  induction reqs generalizing L with
  | nil => exact ⟨hpw, List.prefix_refl L⟩
  | cons req rest ih =>
    obtain ⟨frW, frH, us⟩ := req
    have hstep := is_frame_placed_invariant frW frH L wallSize us hpw
    have htail := ih _ hstep.1
    exact ⟨htail.1, hstep.2.trans htail.2⟩

/-- C1 witness: the invariant theorem applied to a small concrete run of
two requests starting from the empty list. -/
theorem packer_non_overlap_invariant_witness :
    ([] : List FrameData).Pairwise separated ∧
      ((packRun 64 [(10, 10, [(1/2, 1/2)]), (10, 10, [(1/2, 1/2), (0, 0)])] []).Pairwise separated ∧
        [] <+: packRun 64 [(10, 10, [(1/2, 1/2)]), (10, 10, [(1/2, 1/2), (0, 0)])] []) :=
  ⟨List.Pairwise.nil,
    packer_non_overlap_invariant 64 [(10, 10, [(1/2, 1/2)]), (10, 10, [(1/2, 1/2), (0, 0)])] []
      List.Pairwise.nil⟩

/-- The retry loop is the search for the first non-overlapping candidate
among the attempted positions. -/
lemma placeAttempts_eq_find (frW frH : ℚ) (L : List FrameData) (wallSize : ℚ)
    (us : List (ℚ × ℚ)) :
    placeAttempts frW frH L wallSize us =
      match (us.map (attemptPos frW frH wallSize)).find?
          (fun p => !is_overlap p.1 p.2 frW frH L) with
      | none => (false, L)
      | some p => (true, L ++ [⟨p.1, p.2, frW, frH⟩]) := by
  induction us with
  | nil => rfl
  | cons u rest ih =>
    unfold placeAttempts
    rw [List.map_cons, List.find?_cons]
    by_cases hov : is_overlap (attemptPos frW frH wallSize u).1
        (attemptPos frW frH wallSize u).2 frW frH L = true
    · simp only [hov, if_true, Bool.not_true]
      exact ih
    · have hov' : is_overlap (attemptPos frW frH wallSize u).1
          (attemptPos frW frH wallSize u).2 frW frH L = false := by
        simpa using hov
      simp only [hov', Bool.false_eq_true, if_false, Bool.not_false]

/-- C6. Placement atomicity: a call of is_frame_placed_on_wall either
succeeds, appending to the accepted list exactly the one entry built from
the first candidate of the (at most max_attempts) attempted positions
that does not overlap, or fails with the list unchanged after exhausting
the attempt budget; there is no other outcome. -/
theorem placement_atomicity (frW frH : ℚ) (L : List FrameData) (wallSize : ℚ)
    (us : List (ℚ × ℚ)) :
    is_frame_placed_on_wall frW frH L wallSize us =
      match ((us.take max_attempts).map (attemptPos frW frH wallSize)).find?
          (fun p => !is_overlap p.1 p.2 frW frH L) with
      | none => (false, L)
      | some p => (true, L ++ [⟨p.1, p.2, frW, frH⟩]) :=
  placeAttempts_eq_find frW frH L wallSize (us.take max_attempts)

/-- C5. A rectangle wider than the region is not rejected: with width 20
against wall size 10 and an empty accepted list, the inverted
random.uniform bounds still produce a candidate (here the draw 1/2 gives
the center (0, 5)), no containment check exists, and the call immediately
accepts and records the rectangle instead of failing. -/
theorem oversized_rectangle_accepted :
    is_frame_placed_on_wall 20 4 [] 10 [(1/2, 1/2)] = (true, [⟨0, 5, 20, 4⟩]) := by
  simp [is_frame_placed_on_wall, max_attempts, placeAttempts, attemptPos, uniform, is_overlap]
  norm_num

/-! ### Path animator (ball_manager.py) -/

/-- A 3D value (point, scale triple or RGB color) with rational
coordinates. -/
structure Vec3 where
  x : ℚ
  y : ℚ
  z : ℚ
deriving DecidableEq

/-- One transform keyframe emitted by animate_ball: the time it is keyed
at together with the translate and scale values captured there. The code
always keys translate, scaleX, scaleY and scaleZ at the same times. -/
structure TKey where
  time : ℚ
  pos : Vec3
  scale : Vec3
deriving DecidableEq

/-- One keyframe on the shader emissionColor attribute. -/
structure CKey where
  time : ℚ
  color : Vec3
deriving DecidableEq

/-- Frame rate constant of animate_ball. -/
def fps : ℕ := 25

/-- Total duration in seconds, constant of animate_ball. -/
def duration : ℕ := 10

/-- Total frame count of animate_ball, fps times duration = 250. -/
def total_frames : ℕ := fps * duration

/-- Bounce height constant of animate_ball. -/
def bounce_height : ℚ := 5

/-- Bounce steepness constant of animate_ball. -/
def bounce_factor : ℚ := 4

/-- Squash amount constant of animate_ball. -/
def squash_factor : ℚ := 3/10

/-- Shallow embedding of ball_manager.py get_interpolated_vals: linear
interpolation of each coordinate. -/
def get_interpolated_vals (t : ℚ) (startPt endPt : Vec3) : Vec3 :=
  ⟨(1 - t) * startPt.x + t * endPt.x,
   (1 - t) * startPt.y + t * endPt.y,
   (1 - t) * startPt.z + t * endPt.z⟩

/-- The per-segment time interval of animate_ball: total_frames divided by
num_points - 1 when there is more than one point, else 0. The code is
generalised over the frame budget F and the point count N; the repository
instantiates F to total_frames. -/
def animInterval (F N : ℕ) : ℚ := if 1 < N then (F : ℚ) / ((N - 1 : ℕ) : ℚ) else 0

/-- Python int(i * interval): truncation of the nonnegative product is the
natural floor. This is the left endpoint of segment i's frame range. -/
def segLo (F N i : ℕ) : ℕ := ⌊(i : ℚ) * animInterval F N⌋₊

/-- The frame range of segment i in animate_ball:
range(int(i * interval), int((i + 1) * interval)). -/
def segFrames (F N i : ℕ) : List ℕ :=
  List.range' (segLo F N i) (segLo F N (i + 1) - segLo F N i)

/-- All frames visited by the inner loop of animate_ball across all
segments, in emission order. -/
def allLoopFrames (F N : ℕ) : List ℕ := (List.range (N - 1)).flatMap (segFrames F N)

/-- Normalized time of a frame within segment i, the code's
t = (frame - i * interval) / interval. -/
def tNorm (F N i f : ℕ) : ℚ :=
  ((f : ℚ) - (i : ℚ) * animInterval F N) / animInterval F N

/-- The parabolic bounce value of animate_ball at a frame of segment i:
bounce_height * (1 - bounce_factor * (t - 0.5) ** 2) with h and k the
generalized bounce height and factor. -/
def bounceOf (F : ℕ) (h k : ℚ) (N i f : ℕ) : ℚ :=
  h * (1 - k * (tNorm F N i f - 1/2) ^ 2)

/-- The transform keyframe emitted by the loop body of animate_ball for
frame f of segment i: interpolated position with clipped bounce added to
y, stretch scales while the bounce is positive and squash scales
otherwise. -/
def loopKey (F : ℕ) (h k s : ℚ) (coords : List Vec3) (i f : ℕ) : TKey :=
  let t := tNorm F coords.length i f
  let startPt := coords.getD i ⟨0, 0, 0⟩
  let endPt := coords.getD (i + 1) ⟨0, 0, 0⟩
  let ip := get_interpolated_vals t startPt endPt
  let bounce := bounceOf F h k coords.length i f
  let yVal := ip.y + max 0 bounce
  let scale_xz := if 0 < bounce then 1 - s * (bounce / h) else 1 + s
  let scale_y := if 0 < bounce then 1 + s * (bounce / h) else 1 - s
  ⟨(f : ℚ), ⟨ip.x, yVal, ip.z⟩, ⟨scale_xz, scale_y, scale_xz⟩⟩

/-- All transform keyframes emitted by the segment loop of animate_ball,
in emission order. -/
def loopKeys (F : ℕ) (h k s : ℚ) (coords : List Vec3) : List TKey :=
  (List.range (coords.length - 1)).flatMap fun i =>
    (segFrames F coords.length i).map (loopKey F h k s coords i)

/-- The initial emissive color set before the loop (red). -/
def initColor : Vec3 := ⟨1, 0, 0⟩

/-- The color keyframes emitted inside the segment loop, one per segment,
keyed at (i + 1) * interval with the i-th color drawn from the stream. -/
def landingColorKeys (F : ℕ) (cs : ℕ → Vec3) (N : ℕ) : List CKey :=
  (List.range (N - 1)).map fun (i : ℕ) => ⟨((i : ℚ) + 1) * animInterval F N, cs i⟩

/-- The full keyframe trace emitted by one animate_ball call, in emission
order: the initial keyframes at time 0, the loop keyframes, the final
keyframes at time total_frames, and the color keyframes. -/
structure Trace where
  transformKeys : List TKey
  colorKeys : List CKey
deriving DecidableEq

/-- The landing-color events of a trace: every color keyframe except the
initial red one. -/
def Trace.landingColors (tr : Trace) : List CKey := tr.colorKeys.drop 1

/-- The trace built by a successful animate_ball run on a nonempty
waypoint list: initial key at time 0 at the first waypoint with identity
scale, the loop keys, and the final key at time F at the last waypoint
with identity scale; the initial red color key followed by one landing
color key per segment. -/
def mkTrace (F : ℕ) (h k s : ℚ) (cs : ℕ → Vec3) (coords : List Vec3) : Trace :=
  { transformKeys :=
      ⟨0, coords.headD ⟨0, 0, 0⟩, ⟨1, 1, 1⟩⟩ ::
        (loopKeys F h k s coords ++ [⟨(F : ℚ), coords.getLastD ⟨0, 0, 0⟩, ⟨1, 1, 1⟩⟩]),
    colorKeys := ⟨0, initColor⟩ :: landingColorKeys F cs coords.length }

/-- Python failure modes of animate_ball: indexing an empty list raises
an index error, and a division with zero divisor raises a zero-division
error. -/
inductive AnimErr where
  | indexError
  | divByZero
deriving DecidableEq

/-- The condition under which the Python code would raise
ZeroDivisionError: some loop iteration executes, so the division by
interval in t is evaluated, while interval is 0 — or the division
bounce / bounce_height in the stretch branch is evaluated (the bounce is
positive) while the height h is 0. -/
def divGuard (F : ℕ) (h k : ℚ) (N : ℕ) : Prop :=
  (animInterval F N = 0 ∧ allLoopFrames F N ≠ []) ∨
  (h = 0 ∧ ∃ i ∈ List.range (N - 1), ∃ f ∈ segFrames F N i, 0 < bounceOf F h k N i f)

instance (F : ℕ) (h k : ℚ) (N : ℕ) : Decidable (divGuard F h k N) := by
  unfold divGuard; infer_instance

/-- Shallow embedding of ball_manager.py animate_ball, generalised over
the frame budget F and the bounce parameters h, k, s (the code fixes
F = total_frames, h = bounce_height, k = bounce_factor,
s = squash_factor), with the random color stream cs passed explicitly.
Python partiality is made explicit: an empty waypoint list fails on the
coords[0] access, and a division by zero would fail with divByZero. -/
def animate_ball (F : ℕ) (h k s : ℚ) (cs : ℕ → Vec3) (coords : List Vec3) :
    Except AnimErr Trace :=
  if coords.isEmpty then .error .indexError
  else if divGuard F h k coords.length then .error .divByZero
  else .ok (mkTrace F h k s cs coords)

/-- Maya keyframe semantics: the effective sample of a trace at a time is
the last transform keyframe emitted at that exact time, since a later
setKeyframe at an existing time replaces the stored value. -/
def sampleAt (tr : Trace) (q : ℚ) : Option TKey :=
  (tr.transformKeys.filter fun kf => decide (kf.time = q)).getLast?

/-- The waypoint sequence built by ball_manager.py setup_ball_animation
from the stair top-center list: append the first point, then reverse. -/
def setup_waypoints (pts : List Vec3) : List Vec3 :=
  (pts ++ [pts.headD ⟨0, 0, 0⟩]).reverse

/-! ### Segment frame partition -/

lemma animInterval_nonneg (F N : ℕ) : 0 ≤ animInterval F N := by
  unfold animInterval
  split
  · positivity
  · exact le_refl 0

lemma segLo_mono (F N : ℕ) {i j : ℕ} (hij : i ≤ j) : segLo F N i ≤ segLo F N j :=
  Nat.floor_mono
    (mul_le_mul_of_nonneg_right (Nat.cast_le.mpr hij) (animInterval_nonneg F N))

lemma segLo_zero (F N : ℕ) : segLo F N 0 = 0 := by
  simp [segLo]

lemma segLo_eq_div (F N i : ℕ) (hN : 2 ≤ N) : segLo F N i = i * F / (N - 1) := by
  unfold segLo animInterval
  rw [if_pos (by omega)]
  rw [show (i : ℚ) * ((F : ℚ) / ((N - 1 : ℕ) : ℚ)) = ((i * F : ℕ) : ℚ) / ((N - 1 : ℕ) : ℚ) by
    push_cast; ring]
  exact Nat.floor_div_eq_div (i * F) (N - 1)

lemma segLo_last (F N : ℕ) (hN : 2 ≤ N) : segLo F N (N - 1) = F := by
  rw [segLo_eq_div F N (N - 1) hN]
  exact Nat.mul_div_cancel_left F (by omega)

lemma segLo_biUnion (F N : ℕ) (m : ℕ) :
    (Finset.range m).biUnion (fun i => Finset.Ico (segLo F N i) (segLo F N (i + 1))) =
      Finset.range (segLo F N m) := by
  induction m with
  | zero => simp [segLo_zero]
  | succ m ih =>
    rw [Finset.range_succ, Finset.biUnion_insert, ih, Finset.range_eq_Ico,
      Finset.union_comm,
      Finset.Ico_union_Ico_eq_Ico (Nat.zero_le _) (segLo_mono F N (by omega))]

/-- C8. Segment frame partition: for every waypoint count N of at least 2
and every frame budget F, the per-segment ranges
range(int(i * interval), int((i + 1) * interval)) for i = 0 .. N - 2,
with interval = F / (N - 1) in exact arithmetic, are pairwise disjoint
and their union is exactly the frames 0 .. F - 1. -/
theorem segment_partition (F N : ℕ) (hN : 2 ≤ N) :
    (∀ i ∈ Finset.range (N - 1), ∀ j ∈ Finset.range (N - 1), i ≠ j →
      Disjoint (Finset.Ico (segLo F N i) (segLo F N (i + 1)))
        (Finset.Ico (segLo F N j) (segLo F N (j + 1)))) ∧
    (Finset.range (N - 1)).biUnion
        (fun i => Finset.Ico (segLo F N i) (segLo F N (i + 1))) = Finset.range F := by
  constructor
  · have hcore : ∀ i j : ℕ, i < j →
        Disjoint (Finset.Ico (segLo F N i) (segLo F N (i + 1)))
          (Finset.Ico (segLo F N j) (segLo F N (j + 1))) := by
      intro i j hij
      rw [Finset.disjoint_left]
      intro a ha hb
      rw [Finset.mem_Ico] at ha hb
      have hle : segLo F N (i + 1) ≤ segLo F N j := segLo_mono F N (by omega)
      omega
    intro i _ j _ hij
    rcases Nat.lt_or_ge i j with hlt | hge
    · exact hcore i j hlt
    · exact (hcore j i (by omega)).symm
  · rw [segLo_biUnion F N (N - 1), segLo_last F N hN]

/-- C8 witness: the partition theorem applied at the concrete instance
F = 5 frames and N = 3 waypoints. -/
theorem segment_partition_witness :
    2 ≤ 3 ∧
      ((∀ i ∈ Finset.range (3 - 1), ∀ j ∈ Finset.range (3 - 1), i ≠ j →
        Disjoint (Finset.Ico (segLo 5 3 i) (segLo 5 3 (i + 1)))
          (Finset.Ico (segLo 5 3 j) (segLo 5 3 (j + 1)))) ∧
      (Finset.range (3 - 1)).biUnion
          (fun i => Finset.Ico (segLo 5 3 i) (segLo 5 3 (i + 1))) = Finset.range 5) :=
  ⟨by norm_num, segment_partition 5 3 (by norm_num)⟩

/-! ### Locating the keyframe that wins at a given time -/

lemma mem_segFrames {F N i f : ℕ} :
    f ∈ segFrames F N i ↔ segLo F N i ≤ f ∧ f < segLo F N (i + 1) := by
  unfold segFrames
  rw [List.mem_range']
  constructor
  · rintro ⟨j, hj, rfl⟩
    omega
  · intro hf
    exact ⟨f - segLo F N i, by omega, by omega⟩

lemma segFrames_lt (F N : ℕ) (hN : 2 ≤ N) {i f : ℕ} (hi : i < N - 1)
    (hf : f ∈ segFrames F N i) : f < F := by
  have h2 := (mem_segFrames.mp hf).2
  have h3 : segLo F N (i + 1) ≤ segLo F N (N - 1) := segLo_mono F N (by omega)
  rw [segLo_last F N hN] at h3
  omega

/-- The index of the segment whose frame range contains frame f: the
largest i with int(i * interval) at most f. -/
def segIdx (F N f : ℕ) : ℕ := Nat.findGreatest (fun i => segLo F N i ≤ f) (N - 2)

lemma segIdx_spec (F N f : ℕ) (hN : 2 ≤ N) (hf : f < F) :
    segIdx F N f < N - 1 ∧ segLo F N (segIdx F N f) ≤ f ∧
      f < segLo F N (segIdx F N f + 1) := by
  have h0 : segLo F N 0 ≤ f := by rw [segLo_zero]; omega
  have hspec : segLo F N (segIdx F N f) ≤ f :=
    Nat.findGreatest_spec (P := fun i => segLo F N i ≤ f) (Nat.zero_le (N - 2)) h0
  have hle : segIdx F N f ≤ N - 2 :=
    Nat.findGreatest_le (P := fun i => segLo F N i ≤ f) (N - 2)
  refine ⟨by omega, hspec, ?_⟩
  by_cases hend : segIdx F N f = N - 2
  · have heq : segIdx F N f + 1 = N - 1 := by omega
    rw [heq, segLo_last F N hN]
    exact hf
  · have hlt : segIdx F N f + 1 ≤ N - 2 := by omega
    by_contra hcon
    push_neg at hcon
    have hge : segIdx F N f + 1 ≤ segIdx F N f :=
      Nat.le_findGreatest (P := fun i => segLo F N i ≤ f) hlt hcon
    omega

lemma segIdx_unique (F N f : ℕ) (hN : 2 ≤ N) (hf : f < F) {i : ℕ}
    (_hi : i < N - 1) (hlo : segLo F N i ≤ f) (hhi : f < segLo F N (i + 1)) :
    i = segIdx F N f := by
  obtain ⟨hj, hjlo, hjhi⟩ := segIdx_spec F N f hN hf
  rcases Nat.lt_trichotomy i (segIdx F N f) with hlt | heq | hgt
  · have := segLo_mono F N (show i + 1 ≤ segIdx F N f by omega)
    omega
  · exact heq
  · have := segLo_mono F N (show segIdx F N f + 1 ≤ i by omega)
    omega

lemma filter_flatMap' {α β : Type} {l : List α} {g : α → List β} {p : β → Bool} :
    (l.flatMap g).filter p = l.flatMap fun a => (g a).filter p := by
  induction l with
  | nil => rfl
  | cons a rest ih => rw [List.flatMap_cons, List.filter_append, ih, List.flatMap_cons]

lemma filter_range'_eq_single :
    ∀ (n s f : ℕ), (List.range' s n).filter (fun x => decide (x = f)) =
      if s ≤ f ∧ f < s + n then [f] else [] := by
  intro n
  induction n with
  | zero =>
    intro s f
    rw [if_neg (by omega)]
    rfl
  | succ n ih =>
    intro s f
    rw [List.range'_succ, List.filter_cons]
    by_cases hsf : s = f
    · subst hsf
      have hrest : (List.range' (s + 1) n).filter (fun x => decide (x = s)) = [] := by
        rw [ih, if_neg (by omega)]
      rw [if_pos (by simp), hrest, if_pos (by omega)]
    · rw [if_neg (by simpa using hsf), ih]
      by_cases hcond : s + 1 ≤ f ∧ f < s + 1 + n
      · rw [if_pos hcond, if_pos (by omega)]
      · rw [if_neg hcond, if_neg (by omega)]

lemma flatMap_single_support {β : Type} :
    ∀ (n : ℕ) (g : ℕ → List β) (i₀ : ℕ) (b : β), i₀ < n → g i₀ = [b] →
      (∀ j < n, j ≠ i₀ → g j = []) → (List.range n).flatMap g = [b] := by
  intro n
  induction n with
  | zero =>
    intro g i₀ b hi₀ _ _
    omega
  | succ n ih =>
    intro g i₀ b hi₀ hval hnil
    rw [List.range_succ, List.flatMap_append, List.flatMap_singleton]
    by_cases hin : i₀ = n
    · have hpre : (List.range n).flatMap g = [] := by
        apply List.flatMap_eq_nil_iff.mpr
        intro j hj
        rw [List.mem_range] at hj
        exact hnil j (by omega) (by omega)
      rw [hpre, show g n = [b] from hin ▸ hval]
      rfl
    · have hlast : g n = [] := hnil n (by omega) (fun he => hin he.symm)
      rw [ih g i₀ b (by omega) hval (fun j hj hne => hnil j (by omega) hne), hlast]
      rfl

lemma flatMap_no_support {β : Type} {n : ℕ} {g : ℕ → List β}
    (hnil : ∀ j < n, g j = []) : (List.range n).flatMap g = [] := by
  apply List.flatMap_eq_nil_iff.mpr
  intro j hj
  rw [List.mem_range] at hj
  exact hnil j hj

lemma loopKey_time (F : ℕ) (h k s : ℚ) (coords : List Vec3) (i f : ℕ) :
    (loopKey F h k s coords i f).time = (f : ℚ) := rfl

lemma filter_loopKeys (F : ℕ) (h k s : ℚ) (coords : List Vec3) (g : ℕ)
    (hN : 2 ≤ coords.length) (hg : g < F) :
    (loopKeys F h k s coords).filter (fun kf => decide (kf.time = (g : ℚ))) =
      [loopKey F h k s coords (segIdx F coords.length g) g] := by
  unfold loopKeys
  rw [filter_flatMap']
  have hper : ∀ i : ℕ,
      ((segFrames F coords.length i).map (loopKey F h k s coords i)).filter
        (fun kf => decide (kf.time = (g : ℚ))) =
      ((segFrames F coords.length i).filter (fun fr => decide (fr = g))).map
        (loopKey F h k s coords i) := by
    intro i
    rw [List.filter_map]
    have hpred : ((fun kf => decide (kf.time = (g : ℚ))) ∘ loopKey F h k s coords i) =
        fun fr => decide (fr = g) := by
      funext fr
      show decide ((loopKey F h k s coords i fr).time = (g : ℚ)) = decide (fr = g)
      rw [loopKey_time]
      exact decide_eq_decide.mpr Nat.cast_inj
    rw [hpred]
  simp only [hper]
  obtain ⟨hjlt, hjlo, hjhi⟩ := segIdx_spec F coords.length g hN hg
  refine flatMap_single_support _ _ _ _ hjlt ?_ ?_
  · rw [show segFrames F coords.length (segIdx F coords.length g) =
        List.range' (segLo F coords.length (segIdx F coords.length g))
          (segLo F coords.length (segIdx F coords.length g + 1) -
            segLo F coords.length (segIdx F coords.length g)) from rfl]
    rw [filter_range'_eq_single]
    have hmono := segLo_mono F coords.length
      (show segIdx F coords.length g ≤ segIdx F coords.length g + 1 by omega)
    rw [if_pos (by omega)]
    rfl
  · intro j hj hne
    rw [show segFrames F coords.length j =
        List.range' (segLo F coords.length j)
          (segLo F coords.length (j + 1) - segLo F coords.length j) from rfl]
    rw [filter_range'_eq_single]
    have hmono := segLo_mono F coords.length (show j ≤ j + 1 by omega)
    rw [if_neg ?_]
    · rfl
    · intro hcond
      exact hne (segIdx_unique F coords.length g hN hg hj hcond.1 (by omega))

lemma filter_loopKeys_nil (F : ℕ) (h k s : ℚ) (coords : List Vec3)
    (hN : 2 ≤ coords.length) :
    (loopKeys F h k s coords).filter (fun kf => decide (kf.time = (F : ℚ))) = [] := by
  apply List.filter_eq_nil_iff.mpr
  intro kf hkf
  unfold loopKeys at hkf
  rw [List.mem_flatMap] at hkf
  obtain ⟨i, hi, hkmem⟩ := hkf
  rw [List.mem_map] at hkmem
  obtain ⟨fr, hfr, rfl⟩ := hkmem
  rw [List.mem_range] at hi
  have hlt : fr < F := segFrames_lt F coords.length hN hi hfr
  simp only [decide_eq_true_eq]
  rw [loopKey_time]
  intro hc
  exact absurd (Nat.cast_injective hc) (by omega)

/-- The effective sample at an in-range frame g is the loop keyframe of
the unique segment containing g: every other emitted keyframe at time g
(only the initial one, when g = 0) is overwritten by it. -/
lemma sampleAt_loop (F : ℕ) (h k s : ℚ) (cs : ℕ → Vec3) (coords : List Vec3) (g : ℕ)
    (hN : 2 ≤ coords.length) (hg : g < F) :
    sampleAt (mkTrace F h k s cs coords) (g : ℚ) =
      some (loopKey F h k s coords (segIdx F coords.length g) g) := by
  unfold sampleAt mkTrace
  simp only [List.filter_cons, List.filter_append]
  rw [filter_loopKeys F h k s coords g hN hg]
  have hfin : (decide ((⟨(F : ℚ), coords.getLastD ⟨0, 0, 0⟩, ⟨1, 1, 1⟩⟩ : TKey).time
      = (g : ℚ))) = false := by
    simp only [decide_eq_false_iff_not]
    intro hc
    exact absurd (Nat.cast_injective hc) (by omega)
  rw [hfin]
  by_cases h0 : (decide ((⟨0, coords.headD ⟨0, 0, 0⟩, ⟨1, 1, 1⟩⟩ : TKey).time
      = (g : ℚ))) = true
  · rw [if_pos h0]
    rfl
  · rw [if_neg h0]
    rfl

/-- The effective sample at the final frame F is the final keyframe: the
last waypoint with identity scale; no loop keyframe reaches time F. -/
lemma sampleAt_final (F : ℕ) (h k s : ℚ) (cs : ℕ → Vec3) (coords : List Vec3)
    (hN : 2 ≤ coords.length) (hF : 1 ≤ F) :
    sampleAt (mkTrace F h k s cs coords) (F : ℚ) =
      some ⟨(F : ℚ), coords.getLastD ⟨0, 0, 0⟩, ⟨1, 1, 1⟩⟩ := by
  unfold sampleAt mkTrace
  simp only [List.filter_cons, List.filter_append]
  rw [filter_loopKeys_nil F h k s coords hN]
  have h0 : ¬ ((0 : ℚ) = (F : ℚ)) := by
    intro hc
    have hc' : ((0 : ℕ) : ℚ) = (F : ℚ) := by rw [Nat.cast_zero]; exact hc
    exact absurd (Nat.cast_injective hc') (by omega)
  simp [h0]

/-! ### Totality of animate_ball on nonempty input -/

/-- A constant color stream used for concrete instances. -/
def constColor : ℕ → Vec3 := fun _ => initColor

lemma segLo_of_interval_zero (F N : ℕ) (hzero : animInterval F N = 0) (m : ℕ) :
    segLo F N m = 0 := by
  unfold segLo
  rw [hzero, mul_zero]
  exact Nat.floor_zero

/-- On a nonempty waypoint list animate_ball always succeeds and returns
the trace mkTrace: neither Python failure mode is reachable. -/
lemma animate_ok (F : ℕ) (h k s : ℚ) (cs : ℕ → Vec3) (coords : List Vec3)
    (hne : coords ≠ []) :
    animate_ball F h k s cs coords = .ok (mkTrace F h k s cs coords) := by
  unfold animate_ball
  rw [if_neg (by simpa using hne), if_neg ?_]
  intro hguard
  rcases hguard with ⟨hzero, hnonnil⟩ | ⟨hh0, i, _, f, hf, hpos⟩
  · apply hnonnil
    unfold allLoopFrames
    apply flatMap_no_support
    intro j _
    unfold segFrames
    rw [segLo_of_interval_zero F coords.length hzero j,
      segLo_of_interval_zero F coords.length hzero (j + 1)]
    rfl
  · unfold bounceOf at hpos
    rw [hh0, zero_mul] at hpos
    exact lt_irrefl 0 hpos

/-- C10. Division safety: the normalized-time division by interval is
evaluated only inside the segment loop, which runs no iteration when the
waypoint count is 1 (interval is set to 0 there but never used as a
divisor) and has a positive interval otherwise, and the stretch-branch
division by the bounce height is evaluated only when the bounce is
positive, which forces a nonzero height; hence for every nonempty
waypoint sequence animate_ball never raises a division-by-zero error. -/
theorem no_division_by_zero (F : ℕ) (h k s : ℚ) (cs : ℕ → Vec3) (coords : List Vec3)
    (hne : coords ≠ []) :
    animate_ball F h k s cs coords ≠ Except.error AnimErr.divByZero := by
  rw [animate_ok F h k s cs coords hne]
  intro hc
  exact Except.noConfusion hc

/-- C10 witness: the division-safety theorem applied to a concrete
one-waypoint input with the code's constants. -/
theorem no_division_by_zero_witness :
    ([⟨0, 0, 0⟩] : List Vec3) ≠ [] ∧
      animate_ball total_frames bounce_height bounce_factor squash_factor
          constColor [⟨0, 0, 0⟩] ≠ Except.error AnimErr.divByZero :=
  ⟨by simp, no_division_by_zero total_frames bounce_height bounce_factor squash_factor
    constColor [⟨0, 0, 0⟩] (by simp)⟩

/-- C4 (amended). The animator performs no input validation: an empty
waypoint sequence fails with an uncontrolled index error on the coords[0]
access, not a dedicated invalid-input error, while the duration and the
bounce parameters are never checked, whatever their sign; a one-waypoint
sequence is accepted and produces a static trace. -/
theorem no_input_validation (F : ℕ) (h k s : ℚ) (cs : ℕ → Vec3) :
    animate_ball F h k s cs [] = .error .indexError ∧
      ∀ v : Vec3, animate_ball F h k s cs [v] = .ok (mkTrace F h k s cs [v]) := by
  constructor
  · rfl
  · intro v
    exact animate_ok F h k s cs [v] (by simp)

/-- C4 counterexample: with duration 0 frames and all bounce parameters
equal to -1 — every one of them non-positive — the animator does not fail
with any error; it succeeds and returns a trace. -/
theorem nonpositive_params_accepted :
    animate_ball 0 (-1) (-1) (-1) constColor [⟨0, 0, 0⟩] =
      .ok (mkTrace 0 (-1) (-1) (-1) constColor [⟨0, 0, 0⟩]) :=
  animate_ok 0 (-1) (-1) (-1) constColor [⟨0, 0, 0⟩] (by simp)

/-! ### Landing-color events -/

/-- C2 (amended). One landing-color event fires per segment, not per
interior waypoint: a successful animate_ball run on N waypoints emits
exactly N - 1 landing-color events (zero when N = 1), the j-th keyed at
time (j + 1) * interval — so the last one coincides with the final frame
F at the last waypoint rather than an interior waypoint. -/
theorem landing_events_per_segment (F : ℕ) (h k s : ℚ) (cs : ℕ → Vec3)
    (coords : List Vec3) (tr : Trace)
    (hok : animate_ball F h k s cs coords = .ok tr) :
    tr.landingColors.length = coords.length - 1 ∧
      ∀ j, j < coords.length - 1 →
        tr.landingColors[j]? =
          some ⟨((j : ℚ) + 1) * animInterval F coords.length, cs j⟩ := by
  have hne : coords ≠ [] := by
    intro hnil
    rw [hnil] at hok
    rw [show animate_ball F h k s cs ([] : List Vec3) =
      Except.error AnimErr.indexError from rfl] at hok
    exact Except.noConfusion hok
  rw [animate_ok F h k s cs coords hne] at hok
  injection hok with htr
  subst htr
  constructor
  · simp [mkTrace, Trace.landingColors, landingColorKeys]
  · intro j hj
    simp [mkTrace, Trace.landingColors, landingColorKeys, List.getElem?_range hj]

/-- C2 witness: the amended landing-event theorem applied to a concrete
two-waypoint input, giving exactly one landing event. -/
theorem landing_events_per_segment_witness :
    (animate_ball 0 1 1 1 constColor [⟨0, 0, 0⟩, ⟨10, 0, 0⟩] =
      .ok (mkTrace 0 1 1 1 constColor [⟨0, 0, 0⟩, ⟨10, 0, 0⟩])) ∧
    (mkTrace 0 1 1 1 constColor [⟨0, 0, 0⟩, ⟨10, 0, 0⟩]).landingColors.length =
      ([⟨0, 0, 0⟩, ⟨10, 0, 0⟩] : List Vec3).length - 1 :=
  ⟨animate_ok 0 1 1 1 constColor [⟨0, 0, 0⟩, ⟨10, 0, 0⟩] (by simp),
    (landing_events_per_segment 0 1 1 1 constColor [⟨0, 0, 0⟩, ⟨10, 0, 0⟩]
      (mkTrace 0 1 1 1 constColor [⟨0, 0, 0⟩, ⟨10, 0, 0⟩])
      (animate_ok 0 1 1 1 constColor [⟨0, 0, 0⟩, ⟨10, 0, 0⟩] (by simp))).1⟩

/-- C2 counterexample: on the two-waypoint input the code emits one
landing-color event, not the N - 2 = 0 events the claim predicts. -/
theorem landing_events_count_cex :
    (mkTrace total_frames bounce_height bounce_factor squash_factor constColor
        [⟨0, 0, 0⟩, ⟨10, 0, 0⟩]).landingColors.length ≠ 2 - 2 := by
  simp [mkTrace, Trace.landingColors, landingColorKeys]

/-! ### Samples at the endpoint frames -/

lemma segIdx_zero (F N : ℕ) (hN : 2 ≤ N) (hF : N - 1 ≤ F) : segIdx F N 0 = 0 := by
  unfold segIdx
  rw [Nat.findGreatest_eq_zero_iff]
  intro j hj hjle
  have h1 : 1 ≤ segLo F N 1 := by
    rw [segLo_eq_div F N 1 hN, one_mul]
    exact (Nat.one_le_div_iff (by omega)).mpr hF
  have hmono := segLo_mono F N (show 1 ≤ j by omega)
  omega

lemma tNorm_zero (F N : ℕ) : tNorm F N 0 0 = 0 := by
  unfold tNorm
  rw [Nat.cast_zero, zero_mul, sub_zero, zero_div]

lemma get_interpolated_vals_zero (p q : Vec3) : get_interpolated_vals 0 p q = p := by
  unfold get_interpolated_vals
  rcases p with ⟨px, py, pz⟩
  simp

lemma bounce_zero_nonpos (F : ℕ) (h k : ℚ) (N : ℕ) (hh : 0 < h) (hk : 4 ≤ k) :
    bounceOf F h k N 0 0 ≤ 0 := by
  unfold bounceOf
  rw [tNorm_zero]
  nlinarith [mul_nonneg hh.le (show (0 : ℚ) ≤ k / 4 - 1 by linarith)]

/-- At frame 0 of segment 0 the loop writes the interpolated start point:
t is exactly 0 and, when the height is positive and the steepness at
least 4, the parabola is non-positive at t = 0, so the clipped bounce
vanishes. -/
lemma loopKey_zero_pos (F : ℕ) (h k s : ℚ) (coords : List Vec3)
    (hh : 0 < h) (hk : 4 ≤ k) :
    (loopKey F h k s coords 0 0).pos = coords.getD 0 ⟨0, 0, 0⟩ := by
  unfold loopKey
  dsimp only
  rw [tNorm_zero, get_interpolated_vals_zero,
    max_eq_left (bounce_zero_nonpos F h k coords.length hh hk), add_zero]

/-- The effective sample at frame 0 comes from the loop keyframe of the
first nonempty segment, which overwrites the initial keyframe. -/
lemma sampleAt_zero (F : ℕ) (h k s : ℚ) (cs : ℕ → Vec3) (coords : List Vec3)
    (hN : 2 ≤ coords.length) (hF : 1 ≤ F) :
    sampleAt (mkTrace F h k s cs coords) 0 =
      some (loopKey F h k s coords (segIdx F coords.length 0) 0) := by
  have hres := sampleAt_loop F h k s cs coords 0 hN (by omega)
  rwa [Nat.cast_zero] at hres

lemma getD_zero_eq_headD (coords : List Vec3) :
    coords.getD 0 ⟨0, 0, 0⟩ = coords.headD ⟨0, 0, 0⟩ := by
  cases coords <;> rfl

/-- Endpoint behavior of the trace: with at least one frame per segment
and an endpoint-grounded bounce configuration, the frame-0 sample sits at
the first waypoint, and the frame-F sample is the final keyframe at the
last waypoint with identity scale. -/
lemma sample_endpoints_aux (F : ℕ) (h k s : ℚ) (cs : ℕ → Vec3) (coords : List Vec3)
    (hN : 2 ≤ coords.length) (hseg : coords.length - 1 ≤ F)
    (hh : 0 < h) (hk : 4 ≤ k) :
    (sampleAt (mkTrace F h k s cs coords) 0).map TKey.pos =
        some (coords.headD ⟨0, 0, 0⟩) ∧
      sampleAt (mkTrace F h k s cs coords) (F : ℚ) =
        some ⟨(F : ℚ), coords.getLastD ⟨0, 0, 0⟩, ⟨1, 1, 1⟩⟩ := by
  have hF : 1 ≤ F := by omega
  constructor
  · rw [sampleAt_zero F h k s cs coords hN hF,
      segIdx_zero F coords.length hN hseg, Option.map_some',
      loopKey_zero_pos F h k s coords hh hk, getD_zero_eq_headD]
  · exact sampleAt_final F h k s cs coords hN hF

/-- C3 (amended). For every waypoint sequence of length N at least 2 with
N - 1 at most F (every segment at least one frame wide) and every bounce
configuration with positive height and steepness at least 4 (the
endpoint-grounded regime containing the code's k = 4): the effective
sample at frame 0 has position exactly the first waypoint, and the sample
at frame F is exactly the last waypoint with identity scale. -/
theorem endpoint_samples (F : ℕ) (h k s : ℚ) (cs : ℕ → Vec3) (coords : List Vec3)
    (hN : 2 ≤ coords.length) (hseg : coords.length - 1 ≤ F)
    (hh : 0 < h) (hk : 4 ≤ k) :
    (sampleAt (mkTrace F h k s cs coords) 0).map TKey.pos =
        some (coords.headD ⟨0, 0, 0⟩) ∧
      sampleAt (mkTrace F h k s cs coords) (F : ℚ) =
        some ⟨(F : ℚ), coords.getLastD ⟨0, 0, 0⟩, ⟨1, 1, 1⟩⟩ :=
  sample_endpoints_aux F h k s cs coords hN hseg hh hk

/-- C3 witness: the endpoint theorem applied to a concrete two-waypoint
sequence over 2 frames with h = 1, k = 4, s = 1. -/
theorem endpoint_samples_witness :
    (2 ≤ ([⟨0, 0, 0⟩, ⟨10, 0, 0⟩] : List Vec3).length ∧
      ([⟨0, 0, 0⟩, ⟨10, 0, 0⟩] : List Vec3).length - 1 ≤ 2 ∧
      (0 : ℚ) < 1 ∧ (4 : ℚ) ≤ 4) ∧
    ((sampleAt (mkTrace 2 1 4 1 constColor [⟨0, 0, 0⟩, ⟨10, 0, 0⟩]) 0).map TKey.pos =
        some (([⟨0, 0, 0⟩, ⟨10, 0, 0⟩] : List Vec3).headD ⟨0, 0, 0⟩) ∧
      sampleAt (mkTrace 2 1 4 1 constColor [⟨0, 0, 0⟩, ⟨10, 0, 0⟩]) ((2 : ℕ) : ℚ) =
        some ⟨((2 : ℕ) : ℚ), ([⟨0, 0, 0⟩, ⟨10, 0, 0⟩] : List Vec3).getLastD ⟨0, 0, 0⟩,
          ⟨1, 1, 1⟩⟩) :=
  ⟨⟨by norm_num, by norm_num, by norm_num, by norm_num⟩,
    endpoint_samples 2 1 4 1 constColor [⟨0, 0, 0⟩, ⟨10, 0, 0⟩]
      (by norm_num) (by norm_num) (by norm_num) (by norm_num)⟩

/-- C3 counterexample: with the valid bounce configuration h = 5, k = 2,
s = 3/10 (all positive, k below 4) the ball is airborne at t = 0, so the
frame-0 sample — overwritten by the first loop keyframe — has its y
lifted to 5/2 and is not the first waypoint (0, 0, 0). -/
theorem endpoint_sample_zero_cex :
    (sampleAt (mkTrace total_frames bounce_height 2 squash_factor constColor
        [⟨0, 0, 0⟩, ⟨10, 0, 0⟩]) 0).map TKey.pos ≠ some (⟨0, 0, 0⟩ : Vec3) := by
  rw [sampleAt_zero total_frames bounce_height 2 squash_factor constColor
    [⟨0, 0, 0⟩, ⟨10, 0, 0⟩] (by norm_num) (by norm_num [total_frames, fps, duration])]
  rw [show segIdx total_frames (([⟨0, 0, 0⟩, ⟨10, 0, 0⟩] : List Vec3).length) 0 = 0 from
    segIdx_zero total_frames 2 (by norm_num) (by norm_num [total_frames, fps, duration])]
  simp only [Option.map_some']
  intro hc
  injection hc with hkey
  have hy := congrArg Vec3.y hkey
  rw [show (loopKey total_frames bounce_height 2 squash_factor
      [⟨0, 0, 0⟩, ⟨10, 0, 0⟩] 0 0).pos.y = 5/2 by
    norm_num [loopKey, tNorm, bounceOf, get_interpolated_vals, animInterval,
      total_frames, fps, duration, bounce_height]] at hy
  norm_num at hy

/-! ### Closed-loop setup and the reference scenario -/

/-- C9. Closed-loop setup: for every nonempty staircase waypoint list
(of at most total_frames points — the repository's staircase has 18), the
sequence that setup_ball_animation passes to animate_ball, the original
list with its first point appended and then reversed, has its first
element equal to its last element, and consequently the effective
animation position at frame 0 equals the position at frame
total_frames, giving a seamless repeating loop. -/
theorem closed_loop_setup (cs : ℕ → Vec3) (p : Vec3) (rest : List Vec3)
    (hlen : (p :: rest).length ≤ total_frames) :
    (setup_waypoints (p :: rest)).head? = (setup_waypoints (p :: rest)).getLast? ∧
      (sampleAt (mkTrace total_frames bounce_height bounce_factor squash_factor cs
          (setup_waypoints (p :: rest))) 0).map TKey.pos =
        (sampleAt (mkTrace total_frames bounce_height bounce_factor squash_factor cs
          (setup_waypoints (p :: rest))) ((total_frames : ℕ) : ℚ)).map TKey.pos := by
  have hrw : setup_waypoints (p :: rest) = ((p :: rest) ++ [p]).reverse := rfl
  have hseqlen : (setup_waypoints (p :: rest)).length = rest.length + 2 := by
    rw [hrw]
    simp
  have hlen' : rest.length + 1 ≤ total_frames := by simpa using hlen
  have hN : 2 ≤ (setup_waypoints (p :: rest)).length := by omega
  have hseg : (setup_waypoints (p :: rest)).length - 1 ≤ total_frames := by omega
  have hhead : (setup_waypoints (p :: rest)).head? = some p := by
    rw [hrw, List.head?_reverse]
    exact List.getLast?_concat _
  have hlast : (setup_waypoints (p :: rest)).getLast? = some p := by
    rw [hrw, List.getLast?_reverse]
    rfl
  obtain ⟨hz, hfn⟩ := sample_endpoints_aux total_frames bounce_height bounce_factor
    squash_factor cs (setup_waypoints (p :: rest)) hN hseg
    (by norm_num [bounce_height]) (by norm_num [bounce_factor])
  refine ⟨by rw [hhead, hlast], ?_⟩
  rw [hz, hfn, Option.map_some']
  show some ((setup_waypoints (p :: rest)).headD ⟨0, 0, 0⟩) =
    some ((setup_waypoints (p :: rest)).getLastD ⟨0, 0, 0⟩)
  rw [List.headD_eq_head?_getD, hhead, List.getLastD_eq_getLast?, hlast]

/-- C9 witness: the closed-loop theorem applied to the one-point
staircase list. -/
theorem closed_loop_setup_witness :
    ([⟨1, 2, 3⟩] : List Vec3).length ≤ total_frames ∧
      ((setup_waypoints [⟨1, 2, 3⟩]).head? = (setup_waypoints [⟨1, 2, 3⟩]).getLast? ∧
        (sampleAt (mkTrace total_frames bounce_height bounce_factor squash_factor
            constColor (setup_waypoints [⟨1, 2, 3⟩])) 0).map TKey.pos =
          (sampleAt (mkTrace total_frames bounce_height bounce_factor squash_factor
            constColor (setup_waypoints [⟨1, 2, 3⟩])) ((total_frames : ℕ) : ℚ)).map
              TKey.pos) :=
  ⟨by norm_num [total_frames, fps, duration],
    closed_loop_setup constColor ⟨1, 2, 3⟩ []
      (by norm_num [total_frames, fps, duration])⟩

/-- C7 (amended). The reference scenario on waypoints (0,0,0) and
(10,0,0) over 100 frames with h = 5, k = 4, s = 0.3: the effective sample
at frame 0 sits at position (0,0,0) but carries the grounded squash scale
(1.3, 0.7, 1.3), since the loop keyframe at frame 0 overwrites the
initial identity-scale keyframe; the sample at frame 50 has y = 5 with
horizontal scale 0.7 and vertical scale 1.3; the sample at frame 100 is
(10,0,0) with identity scale. -/
theorem scenario_samples :
    sampleAt (mkTrace 100 5 4 (3/10) constColor [⟨0, 0, 0⟩, ⟨10, 0, 0⟩]) 0 =
        some ⟨0, ⟨0, 0, 0⟩, ⟨13/10, 7/10, 13/10⟩⟩ ∧
      sampleAt (mkTrace 100 5 4 (3/10) constColor [⟨0, 0, 0⟩, ⟨10, 0, 0⟩]) 50 =
        some ⟨50, ⟨5, 5, 0⟩, ⟨7/10, 13/10, 7/10⟩⟩ ∧
      sampleAt (mkTrace 100 5 4 (3/10) constColor [⟨0, 0, 0⟩, ⟨10, 0, 0⟩]) 100 =
        some ⟨100, ⟨10, 0, 0⟩, ⟨1, 1, 1⟩⟩ := by
  refine ⟨?_, ?_, ?_⟩
  · rw [sampleAt_zero 100 5 4 (3/10) constColor [⟨0, 0, 0⟩, ⟨10, 0, 0⟩]
      (by norm_num) (by norm_num)]
    norm_num [segIdx, loopKey, tNorm, bounceOf, get_interpolated_vals, animInterval]
  · rw [show (50 : ℚ) = ((50 : ℕ) : ℚ) by norm_num]
    rw [sampleAt_loop 100 5 4 (3/10) constColor [⟨0, 0, 0⟩, ⟨10, 0, 0⟩] 50
      (by norm_num) (by norm_num)]
    norm_num [segIdx, loopKey, tNorm, bounceOf, get_interpolated_vals, animInterval]
  · rw [show (100 : ℚ) = ((100 : ℕ) : ℚ) by norm_num]
    rw [sampleAt_final 100 5 4 (3/10) constColor [⟨0, 0, 0⟩, ⟨10, 0, 0⟩]
      (by norm_num) (by norm_num)]
    norm_num [List.getLastD]

/-- C7 counterexample: the effective sample at frame 0 of the reference
scenario does not have identity scale; the loop keyframe at frame 0
overwrites the initial one, leaving the grounded squash scale. -/
theorem scenario_sample_zero_cex :
    sampleAt (mkTrace 100 5 4 (3/10) constColor [⟨0, 0, 0⟩, ⟨10, 0, 0⟩]) 0 ≠
      some ⟨0, ⟨0, 0, 0⟩, ⟨1, 1, 1⟩⟩ := by
  rw [sampleAt_zero 100 5 4 (3/10) constColor [⟨0, 0, 0⟩, ⟨10, 0, 0⟩]
    (by norm_num) (by norm_num)]
  norm_num [segIdx, loopKey, tNorm, bounceOf, get_interpolated_vals, animInterval]

end EscherBall
